import Mathlib

/-!
Verification development for the typescript-is runtime validation engine.

The repository ships only the public declaration file (index.d.ts) and the
README; the validator-generation/execution engine itself is specified in the
design document.  The definitions below therefore model the engine from the
spec: the type-descriptor data model (spec section 3), the compiled validator
semantics (spec section 4.3), the strictness layer (section 4.5) and the
public entry points (index.d.ts together with sections 6 and 7).

Values are modelled as nodes in a finite heap (a list of nodes addressed by
index) so that cyclic data graphs — which the recursion guard of the spec is
about — are representable.  The validator is written with explicit fuel; a
result of `none` means the fuel ran out, `some v` is a definite verdict.
-/

namespace TsIs

/-- Modelled from the spec: primitive kinds of the `Primitive` descriptor
(spec section 3): string, number, boolean, null, undefined, bigint, any,
unknown, never. -/
inductive PrimKind
  | pString
  | pNumber
  | pBoolean
  | pNull
  | pUndefined
  | pBigint
  | pAny
  | pUnknown
  | pNever
deriving DecidableEq, Repr

/-- Modelled from the spec: runtime values as nodes of a finite heap.  An
object node lists its own enumerable keys with the heap address of each
property value; an array node lists the heap addresses of its elements.
Addresses make value identity (needed by the recursion guard) explicit and
allow cyclic value graphs. -/
inductive JsVal
  | vString (s : String)
  | vNumber (n : Int)
  | vBoolean (b : Bool)
  | vNull
  | vUndefined
  | vBigint (n : Int)
  | vObject (props : List (String × Nat))
  | vArray (elems : List Nat)
deriving DecidableEq, Repr

/-- Heap of runtime values; a heap address is an index into the list. -/
abbrev Heap := List JsVal

/-- Runtime kind of a value, as a primitive kind when it has one: scalar
nodes have their primitive kind, object and array nodes have none (no value
has runtime kind any, unknown or never). -/
def kindOfVal : JsVal → Option PrimKind
  | .vString _ => some .pString
  | .vNumber _ => some .pNumber
  | .vBoolean _ => some .pBoolean
  | .vNull => some .pNull
  | .vUndefined => some .pUndefined
  | .vBigint _ => some .pBigint
  | .vObject _ => none
  | .vArray _ => none

/-- Modelled from the spec: the Type Descriptor model (spec section 3).
`object` properties carry (name, descriptor, optional flag); the readonly
flag has no runtime effect (section 4.3) and is omitted.  `ref` is the
named placeholder resolved through the registry, enabling recursive types.
Generic instantiation is resolved away by the normalizer before validation
and therefore does not appear in the compiled form. -/
inductive Desc
  | primitive (k : PrimKind)
  | lit (v : JsVal)
  | arr (elem : Desc)
  | tuple (elems : List Desc) (rest : Option Desc)
  | object (props : List (String × Desc × Bool)) (indexSig : Option Desc)
  | union (members : List Desc)
  | inter (members : List Desc)
  | ref (id : Nat)

/-- Registry resolving `Desc.ref` identifiers (spec section 4.2). -/
abbrev DescEnv := List Desc

/-- Segment of a failure path: a property name or an array/tuple index. -/
inductive PathSeg
  | field (name : String)
  | index (i : Nat)
deriving DecidableEq, Repr

/-- Failure path from the top-level value down to the failing position. -/
abbrev Path := List PathSeg

/-- Modelled from the spec: run-time validation failure reasons
(spec section 7). -/
inductive Reason
  | typeMismatch
  | missingProperty (name : String)
  | superfluousProperty (name : String)
  | arityMismatch
  | noUnionMemberMatched
  | unreachable
deriving DecidableEq, Repr

/-- Verdict of one validation attempt: pass, or fail with reason and path. -/
inductive Verdict
  | pass
  | fail (reason : Reason) (path : Path)
deriving DecidableEq, Repr

/-- Modelled from the spec: direct comparison of a value against an expected
primitive kind (spec section 4.3): any and unknown always pass, never always
fails with Unreachable, the data kinds compare the runtime kind. -/
def primOk (k : PrimKind) (v : JsVal) : Verdict :=
  match k with
  | .pAny => .pass
  | .pUnknown => .pass
  | .pNever => .fail .unreachable []
  | _ => if kindOfVal v = some k then .pass else .fail .typeMismatch []

/-- First value address stored under a property name in an object node. -/
def lookupProp (kvs : List (String × Nat)) (name : String) : Option Nat :=
  match kvs with
  | [] => none
  | (k, a) :: rest => if k = name then some a else lookupProp rest name

/-- Declared property names of an object descriptor. -/
def declaredNames (props : List (String × Desc × Bool)) : List String :=
  props.map (·.1)

/-- Modelled from the spec: declared-property pass of an `Object` descriptor
(spec section 4.3): a present property is validated with its name pushed on
the failure path; an absent non-optional property fails with
MissingProperty. -/
def seqProps (f : Desc → Nat → Option Verdict) (kvs : List (String × Nat)) :
    List (String × Desc × Bool) → Option Verdict
  | [] => some .pass
  | (name, d, opt) :: rest =>
    match lookupProp kvs name with
    | some a =>
      match f d a with
      | none => none
      | some .pass => seqProps f kvs rest
      | some (.fail r p) => some (.fail r (.field name :: p))
    | none =>
      if opt then seqProps f kvs rest
      else some (.fail (.missingProperty name) [])

/-- Modelled from the spec: element pass of an `Array` descriptor (and of a
tuple rest tail): each element validated against the element descriptor,
the numeric index pushed on the failure path. -/
def seqElems (f : Desc → Nat → Option Verdict) (d : Desc) (i : Nat) :
    List Nat → Option Verdict
  | [] => some .pass
  | a :: rest =>
    match f d a with
    | none => none
    | some .pass => seqElems f d (i + 1) rest
    | some (.fail r p) => some (.fail r (.index i :: p))

/-- Modelled from the spec: positional pass of a `Tuple` descriptor: the
i-th element validated against the i-th descriptor. -/
def seqTuple (f : Desc → Nat → Option Verdict) (i : Nat) :
    List Desc → List Nat → Option Verdict
  | [], _ => some .pass
  | _, [] => some .pass
  | d :: ds, a :: as =>
    match f d a with
    | none => none
    | some .pass => seqTuple f (i + 1) ds as
    | some (.fail r p) => some (.fail r (.index i :: p))

/-- Modelled from the spec: keys not covered by a declared property are
validated against the index signature descriptor (spec section 4.3). -/
def seqIndexKeys (f : Desc → Nat → Option Verdict) (declared : List String)
    (dI : Desc) : List (String × Nat) → Option Verdict
  | [] => some .pass
  | (k, a) :: rest =>
    if k ∈ declared then seqIndexKeys f declared dI rest
    else
      match f dI a with
      | none => none
      | some .pass => seqIndexKeys f declared dI rest
      | some (.fail r p) => some (.fail r (.field k :: p))

/-- Modelled from the spec: the strictness layer (spec section 4.5): after
the declared properties pass, any own enumerable key not accounted for by a
declared property fails with SuperfluousProperty(key). -/
def superfluousCheck (declared : List String) : List (String × Nat) → Verdict
  | [] => .pass
  | (k, _) :: rest =>
    if k ∈ declared then superfluousCheck declared rest
    else .fail (.superfluousProperty k) []

/-- Modelled from the spec: union aggregation (spec section 4.3): members
tried in declaration order, first pass short-circuits; otherwise the failure
of the branch with the deepest path is kept, earlier branches winning ties. -/
def seqUnion (f : Desc → Option Verdict) (best : Option (Reason × Path)) :
    List Desc → Option Verdict
  | [] =>
    match best with
    | none => some (.fail .noUnionMemberMatched [])
    | some (r, p) => some (.fail r p)
  | d :: ds =>
    match f d with
    | none => none
    | some .pass => some .pass
    | some (.fail r p) =>
      match best with
      | none => seqUnion f (some (r, p)) ds
      | some (r0, p0) =>
        if p0.length < p.length then seqUnion f (some (r, p)) ds
        else seqUnion f (some (r0, p0)) ds

/-- Modelled from the spec: intersection (spec section 4.3): every member
must pass; the first failing member's failure is reported. -/
def seqInter (f : Desc → Option Verdict) : List Desc → Option Verdict
  | [] => some .pass
  | d :: ds =>
    match f d with
    | none => none
    | some .pass => seqInter f ds
    | some (.fail r p) => some (.fail r p)

/-- Modelled from the spec: tuple arity test (spec section 4.3): the length
must equal the fixed arity, or be at least the arity when a rest element is
present. -/
def arityOk (es : List Desc) (rest : Option Desc) (xs : List Nat) : Bool :=
  match rest with
  | none => xs.length == es.length
  | some _ => es.length ≤ xs.length

/-- Modelled from the spec: the compiled validator (spec sections 4.3 to
4.5), written with explicit fuel.  `strict` is the strictness flag of the
validation context, `g` the recursion guard of (descriptor id, value
address) pairs; a `ref` hit on a guarded pair is treated as pass.  A result
of `none` means the fuel ran out; `some v` is a definite verdict. -/
def validate (env : DescEnv) (strict : Bool) (h : Heap) :
    Nat → List (Nat × Nat) → Desc → Nat → Option Verdict
  | 0, _, _, _ => none
  | fuel + 1, g, d, a =>
    match h[a]? with
    | none => some (.fail .typeMismatch [])
    | some v =>
      match d with
      | .primitive k => some (primOk k v)
      | .lit w => some (if v = w then .pass else .fail .typeMismatch [])
      | .arr e =>
        match v with
        | .vArray xs => seqElems (fun d₁ a₁ => validate env strict h fuel g d₁ a₁) e 0 xs
        | _ => some (.fail .typeMismatch [])
      | .tuple es rest =>
        match v with
        | .vArray xs =>
          if arityOk es rest xs then
            match seqTuple (fun d₁ a₁ => validate env strict h fuel g d₁ a₁) 0 es xs with
            | none => none
            | some (.fail r p) => some (.fail r p)
            | some .pass =>
              match rest with
              | none => some .pass
              | some rD =>
                seqElems (fun d₁ a₁ => validate env strict h fuel g d₁ a₁) rD
                  es.length (xs.drop es.length)
          else some (.fail .arityMismatch [])
        | _ => some (.fail .typeMismatch [])
      | .object props idx =>
        match v with
        | .vObject kvs =>
          match seqProps (fun d₁ a₁ => validate env strict h fuel g d₁ a₁) kvs props with
          | none => none
          | some (.fail r p) => some (.fail r p)
          | some .pass =>
            match idx with
            | some dI =>
              seqIndexKeys (fun d₁ a₁ => validate env strict h fuel g d₁ a₁)
                (declaredNames props) dI kvs
            | none =>
              if strict then some (superfluousCheck (declaredNames props) kvs)
              else some .pass
        | _ => some (.fail .typeMismatch [])
      | .union ms => seqUnion (fun d₁ => validate env strict h fuel g d₁ a) none ms
      | .inter ms => seqInter (fun d₁ => validate env strict h fuel g d₁ a) ms
      | .ref id =>
        match env[id]?  with
        | none => some (.fail .typeMismatch [])
        | some d₁ =>
          if (id, a) ∈ g then some .pass
          else validate env strict h fuel ((id, a) :: g) d₁ a

/-- Modelled from the spec: process/transformer options (README Options
table): `shortCircuit` makes every type guard report pass without
validating; `disallowSuperfluousObjectProperties` is the process-wide
default for the strictness layer. -/
structure TransformerOptions where
  shortCircuit : Bool
  disallowSuperfluousObjectProperties : Bool
deriving DecidableEq, Repr

/-- Values thrown by JavaScript code, as far as this model needs them: an
instance of the TypeGuardError class of index.d.ts carrying a message, an
instance of some other Error subclass, or a non-Error value. -/
inductive ThrownValue
  | typeGuardError (message : String)
  | otherError (name message : String)
  | nonErrorValue
deriving DecidableEq, Repr

/-- Truth value of `e instanceof TypeGuardError` for a thrown value. -/
def instanceOfTypeGuardError : ThrownValue → Bool
  | .typeGuardError _ => true
  | _ => false

/-- Truth value of `e instanceof Error`: TypeGuardError extends Error
(index.d.ts), and the other modelled class is an Error subclass as well. -/
def instanceOfError : ThrownValue → Bool
  | .typeGuardError _ => true
  | .otherError _ _ => true
  | .nonErrorValue => false

/-- Rendering of one path segment (spec section 4.4). -/
def renderSeg : PathSeg → String
  | .field n => "." ++ n
  | .index i => "[" ++ toString i ++ "]"

/-- Rendering of a failure path, e.g. value.items[2].name
(spec section 4.4). -/
def renderPath (p : Path) : String :=
  "value" ++ String.join (p.map renderSeg)

/-- Human-readable text of a failure reason (spec section 4.4). -/
def renderReason : Reason → String
  | .typeMismatch => "type mismatch"
  | .missingProperty n => "missing required property " ++ n
  | .superfluousProperty n => "superfluous property " ++ n
  | .arityMismatch => "arity mismatch"
  | .noUnionMemberMatched => "no union member matched"
  | .unreachable => "unreachable type"

/-- Message of an assertion error: rendered path combined with the reason
(spec sections 4.4 and 7). -/
def renderFailMessage (r : Reason) (p : Path) : String :=
  renderPath p ++ ": " ++ renderReason r

/-- Modelled from the spec: the compiled top-level entry verdict
(spec section 4.3): when short-circuit is enabled the compiled procedure is
not invoked at all and the verdict is pass; otherwise the validator runs
with a fresh context (empty recursion guard). -/
def topVerdict (opts : TransformerOptions) (strict : Bool) (env : DescEnv)
    (d : Desc) (h : Heap) (fuel a : Nat) : Option Verdict :=
  if opts.shortCircuit then some .pass
  else validate env strict h fuel [] d a

/-- Modelled from the spec: verdict computed by the equals-style entry
points: the strictness layer is enabled for the whole call regardless of
the process-wide default (spec section 4.5). -/
def equalsVerdict (env : DescEnv) (d : Desc) (h : Heap) (fuel a : Nat) :
    Option Verdict :=
  validate env true h fuel [] d a

/-- Modelled from the spec: the boolean check `is` of index.d.ts: collapses
the top-level verdict to a boolean, never producing a thrown value for an
ordinary mismatch (spec section 7). -/
def is (opts : TransformerOptions) (env : DescEnv) (d : Desc) (h : Heap)
    (fuel a : Nat) : Option (Except ThrownValue Bool) :=
  (topVerdict opts opts.disallowSuperfluousObjectProperties env d h fuel a).map
    (fun v => .ok (v == .pass))

/-- Modelled from the spec: `createIs` of index.d.ts: a factory pre-bound
to one descriptor, behaving like `is` when invoked later. -/
def createIs (opts : TransformerOptions) (env : DescEnv) (d : Desc) :
    Heap → Nat → Nat → Option (Except ThrownValue Bool) :=
  fun h fuel a => is opts env d h fuel a

/-- Modelled from the spec: the strict-equality boolean check `equals` of
index.d.ts: like `is` but with the strictness layer always enabled. -/
def equals (opts : TransformerOptions) (env : DescEnv) (d : Desc) (h : Heap)
    (fuel a : Nat) : Option (Except ThrownValue Bool) :=
  (topVerdict opts true env d h fuel a).map (fun v => .ok (v == .pass))

/-- Modelled from the spec: `createEquals` of index.d.ts. -/
def createEquals (opts : TransformerOptions) (env : DescEnv) (d : Desc) :
    Heap → Nat → Nat → Option (Except ThrownValue Bool) :=
  fun h fuel a => equals opts env d h fuel a

/-- Modelled from the spec: the assertion entry point `assertType` of
index.d.ts: returns the given value (its heap address, i.e. the very same
object) when the verdict is pass, and throws a TypeGuardError carrying the
rendered path and reason when the verdict is a failure (spec section 7). -/
def assertType (opts : TransformerOptions) (env : DescEnv) (d : Desc)
    (h : Heap) (fuel a : Nat) : Option (Except ThrownValue Nat) :=
  match topVerdict opts opts.disallowSuperfluousObjectProperties env d h fuel a with
  | none => none
  | some .pass => some (.ok a)
  | some (.fail r p) => some (.error (.typeGuardError (renderFailMessage r p)))

/-- Modelled from the spec: `createAssertType` of index.d.ts. -/
def createAssertType (opts : TransformerOptions) (env : DescEnv) (d : Desc) :
    Heap → Nat → Nat → Option (Except ThrownValue Nat) :=
  fun h fuel a => assertType opts env d h fuel a

/-- Modelled from the spec: `assertEquals` of index.d.ts: assertion with
the strictness layer always enabled. -/
def assertEquals (opts : TransformerOptions) (env : DescEnv) (d : Desc)
    (h : Heap) (fuel a : Nat) : Option (Except ThrownValue Nat) :=
  match topVerdict opts true env d h fuel a with
  | none => none
  | some .pass => some (.ok a)
  | some (.fail r p) => some (.error (.typeGuardError (renderFailMessage r p)))

/-- Modelled from the spec: `createAssertEquals` of index.d.ts. -/
def createAssertEquals (opts : TransformerOptions) (env : DescEnv) (d : Desc) :
    Heap → Nat → Nat → Option (Except ThrownValue Nat) :=
  fun h fuel a => assertEquals opts env d h fuel a

/-- Child addresses of a heap node. -/
def nodeAddrs : JsVal → List Nat
  | .vObject kvs => kvs.map (·.2)
  | .vArray xs => xs
  | _ => []

/-- Well-formed heap: every child address stored in a node is an address of
the heap. -/
def wfHeap (h : Heap) : Bool :=
  h.all (fun v => (nodeAddrs v).all (· < h.length))

/-- The recursive descriptor of the spec's termination property
(section 8): D = Object(next: Reference(D)). -/
def recD : Desc := .object [("next", .ref 0, false)] none

/-- Registry with recD registered under id 0. -/
def recEnv : DescEnv := [recD]

/-- Primitive comparison characterization for the data kinds: for a kind
other than any and unknown, the comparison passes exactly when the value's
runtime kind is that kind. -/
theorem primOk_pass_iff (k : PrimKind) (hk1 : k ≠ .pAny) (hk2 : k ≠ .pUnknown)
    (v : JsVal) : primOk k v = .pass ↔ kindOfVal v = some k := by
  cases k <;>
    first
      | exact absurd rfl hk1
      | exact absurd rfl hk2
      | cases v <;> simp [primOk, kindOfVal]

/-- Unfolding of the validator at a primitive descriptor. -/
theorem validate_primitive (env : DescEnv) (strict : Bool) (h : Heap)
    (fuel : Nat) (g : List (Nat × Nat)) (k : PrimKind) (a : Nat) (v : JsVal)
    (hv : h[a]? = some v) :
    validate env strict h (fuel + 1) g (.primitive k) a = some (primOk k v) := by
  simp [validate, hv]

/-- C1 counterexample: the descriptor Primitive(any) passes the string
value "foo", whose runtime kind is not any, so the claimed equivalence
fails for the primitive kind any. -/
theorem primitive_kind_iff_counterexample :
    ¬ (validate [] false [JsVal.vString "foo"] 1 [] (.primitive .pAny) 0
          = some .pass
        ↔ kindOfVal (JsVal.vString "foo") = some .pAny) := by
  decide

/-- C1 amended: for every primitive kind other than any and unknown (which
always pass by spec section 4.3), validating a value against Primitive(k)
passes exactly when the value's runtime kind equals k, and the boolean
entry point `is` answers true exactly in the same situation. -/
theorem primitive_kind_iff_amended (k : PrimKind) (hk1 : k ≠ .pAny)
    (hk2 : k ≠ .pUnknown) (env : DescEnv) (strict : Bool) (h : Heap)
    (fuel : Nat) (g : List (Nat × Nat)) (a : Nat) (v : JsVal)
    (hv : h[a]? = some v) (opts : TransformerOptions)
    (hsc : opts.shortCircuit = false) :
    (validate env strict h (fuel + 1) g (.primitive k) a = some .pass
      ↔ kindOfVal v = some k) ∧
    (is opts env (.primitive k) h (fuel + 1) a = some (.ok true)
      ↔ kindOfVal v = some k) := by
  constructor
  · rw [validate_primitive env strict h fuel g k a v hv, Option.some_inj]
    exact primOk_pass_iff k hk1 hk2 v
  · rw [show is opts env (.primitive k) h (fuel + 1) a
        = some (.ok (primOk k v == .pass)) by
      simp [is, topVerdict, hsc,
        validate_primitive env opts.disallowSuperfluousObjectProperties h
          fuel [] k a v hv]]
    rw [← primOk_pass_iff k hk1 hk2 v]
    simp [beq_iff_eq]

/-- Witness for the amended C1 at a concrete input: a string value against
Primitive(string). -/
theorem primitive_kind_iff_amended_witness :
    (validate [] false [JsVal.vString "a"] 1 [] (.primitive .pString) 0
        = some .pass
      ↔ kindOfVal (JsVal.vString "a") = some .pString) ∧
    (is ⟨false, false⟩ [] (.primitive .pString) [JsVal.vString "a"] 1 0
        = some (.ok true)
      ↔ kindOfVal (JsVal.vString "a") = some .pString) :=
  primitive_kind_iff_amended .pString (by decide) (by decide) [] false
    [JsVal.vString "a"] 0 [] 0 (JsVal.vString "a") rfl ⟨false, false⟩ rfl

/-- Positional tuple failures always carry the failing index, so their
failure path is never empty. -/
theorem seqTuple_fail_path (f : Desc → Nat → Option Verdict) :
    ∀ (es : List Desc) (xs : List Nat) (i : Nat) (r : Reason) (p : Path),
      seqTuple f i es xs = some (.fail r p) → p ≠ [] := by
  intro es
  induction es with
  | nil => intro xs i r p hp; simp [seqTuple] at hp
  | cons d ds ih =>
    intro xs i r p hp
    cases xs with
    | nil => simp [seqTuple] at hp
    | cons a as =>
      rcases hf : f d a with _ | v
      · simp [seqTuple, hf] at hp
      · cases v with
        | pass =>
          simp only [seqTuple, hf] at hp
          exact ih as (i + 1) r p hp
        | fail r₁ p₁ =>
          simp only [seqTuple, hf, Option.some.injEq, Verdict.fail.injEq] at hp
          obtain ⟨-, hp2⟩ := hp
          simp [← hp2]

/-- Array-element failures always carry the failing index, so their failure
path is never empty. -/
theorem seqElems_fail_path (f : Desc → Nat → Option Verdict) (d : Desc) :
    ∀ (xs : List Nat) (i : Nat) (r : Reason) (p : Path),
      seqElems f d i xs = some (.fail r p) → p ≠ [] := by
  intro xs
  induction xs with
  | nil => intro i r p hp; simp [seqElems] at hp
  | cons a as ih =>
    intro i r p hp
    rcases hf : f d a with _ | v
    · simp [seqElems, hf] at hp
    · cases v with
      | pass =>
        simp only [seqElems, hf] at hp
        exact ih (i + 1) r p hp
      | fail r₁ p₁ =>
        simp only [seqElems, hf, Option.some.injEq, Verdict.fail.injEq] at hp
        obtain ⟨-, hp2⟩ := hp
        simp [← hp2]

/-- C6: a tuple with no rest element fails with ArityMismatch (a reason
distinct from element-type failures, and reported with an empty path at the
tuple itself) whenever the value's length differs from the arity; with a
rest element present, any length at least the arity passes the arity check,
so the verdict is never a top-level ArityMismatch. -/
theorem tuple_arity (env : DescEnv) (strict : Bool) (h : Heap)
    (g : List (Nat × Nat)) (fuel a : Nat) (es : List Desc) (xs : List Nat)
    (hv : h[a]? = some (.vArray xs)) :
    (xs.length ≠ es.length →
      validate env strict h (fuel + 1) g (.tuple es none) a
        = some (.fail .arityMismatch [])) ∧
    (∀ rD, es.length ≤ xs.length →
      validate env strict h (fuel + 1) g (.tuple es (some rD)) a
        ≠ some (.fail .arityMismatch [])) := by
  constructor
  · intro hlen
    have hao : arityOk es none xs = false := by
      simp [arityOk, hlen]
    simp [validate, hv, hao]
  · intro rD hle hcontra
    have hao : arityOk es (some rD) xs = true := by
      simpa [arityOk] using hle
    simp only [validate, hv, hao, if_true] at hcontra
    rcases hst : seqTuple (fun d₁ a₁ => validate env strict h fuel g d₁ a₁) 0 es xs
      with _ | v
    · rw [hst] at hcontra; simp at hcontra
    · cases v with
      | pass =>
        rw [hst] at hcontra
        simp only at hcontra
        rcases hse : seqElems (fun d₁ a₁ => validate env strict h fuel g d₁ a₁)
            rD es.length (xs.drop es.length) with _ | w
        · rw [hse] at hcontra; simp at hcontra
        · cases w with
          | pass => rw [hse] at hcontra; simp at hcontra
          | fail r₁ p₁ =>
            rw [hse] at hcontra
            simp only [Option.some.injEq, Verdict.fail.injEq] at hcontra
            exact seqElems_fail_path _ rD _ _ _ _ hse hcontra.2
      | fail r₁ p₁ =>
        rw [hst] at hcontra
        simp only [Option.some.injEq, Verdict.fail.injEq] at hcontra
        exact seqTuple_fail_path _ es xs 0 _ _ hst hcontra.2

/-- Witness for C6: the spec's concrete tuple examples: one element too
few and one too many both give ArityMismatch without a rest element; with
a rest element the longer value is not an arity failure. -/
theorem tuple_arity_witness :
    validate [] false [JsVal.vArray [1], JsVal.vString "a"] 3 []
        (.tuple [.primitive .pString, .primitive .pNumber] none) 0
      = some (.fail .arityMismatch []) ∧
    validate [] false
        [JsVal.vArray [1, 2, 3], JsVal.vString "a", JsVal.vNumber 1,
          JsVal.vBoolean true] 3 []
        (.tuple [.primitive .pString, .primitive .pNumber] none) 0
      = some (.fail .arityMismatch []) ∧
    validate [] false
        [JsVal.vArray [1, 2, 3], JsVal.vString "a", JsVal.vNumber 1,
          JsVal.vBoolean true] 3 []
        (.tuple [.primitive .pString, .primitive .pNumber]
          (some (.primitive .pBoolean))) 0
      ≠ some (.fail .arityMismatch []) :=
  ⟨(tuple_arity [] false [JsVal.vArray [1], JsVal.vString "a"] [] 2 0
      [.primitive .pString, .primitive .pNumber] [1] rfl).1 (by decide),
   (tuple_arity [] false
      [JsVal.vArray [1, 2, 3], JsVal.vString "a", JsVal.vNumber 1,
        JsVal.vBoolean true] [] 2 0
      [.primitive .pString, .primitive .pNumber] [1, 2, 3] rfl).1 (by decide),
   (tuple_arity [] false
      [JsVal.vArray [1, 2, 3], JsVal.vString "a", JsVal.vNumber 1,
        JsVal.vBoolean true] [] 2 0
      [.primitive .pString, .primitive .pNumber] [1, 2, 3] rfl).2
     (.primitive .pBoolean) (by decide)⟩

/-- The strictness layer flags the first enumerable key that is not
declared, whenever one exists. -/
theorem superfluousCheck_fail (declared : List String) :
    ∀ (kvs : List (String × Nat)) (k : String) (a₁ : Nat),
      (k, a₁) ∈ kvs → k ∉ declared →
      ∃ k₁, k₁ ∉ declared ∧
        superfluousCheck declared kvs = .fail (.superfluousProperty k₁) [] := by
  intro kvs
  induction kvs with
  | nil => intro k a₁ hk _; simp at hk
  | cons q rest ih =>
    intro k a₁ hk hnd
    obtain ⟨k₀, a₀⟩ := q
    by_cases hmem : k₀ ∈ declared
    · rcases List.mem_cons.mp hk with heq | htail
      · injection heq with hk ha
        subst hk
        exact absurd hmem hnd
      · obtain ⟨k₁, h1, h2⟩ := ih k a₁ htail hnd
        exact ⟨k₁, h1, by simp [superfluousCheck, hmem, h2]⟩
    · exact ⟨k₀, hmem, by simp [superfluousCheck, hmem]⟩

/-- C8: under strict validation, an object level with an undeclared
enumerable key (and no index signature) fails with SuperfluousProperty as
soon as its declared properties pass, whatever the surrounding context is;
the equals-style entry points enable strictness independently of the
process-wide default; and concretely the superfluous key is detected at
object levels nested inside a property, an array element, a tuple position
and a union branch. -/
theorem strictness_every_level (env : DescEnv) (h : Heap)
    (g : List (Nat × Nat)) (fuel a : Nat)
    (props : List (String × Desc × Bool)) (kvs : List (String × Nat)) :
    (h[a]? = some (.vObject kvs) →
      seqProps (fun d₁ a₁ => validate env true h fuel g d₁ a₁) kvs props
        = some .pass →
      ∀ k a₁, (k, a₁) ∈ kvs → k ∉ declaredNames props →
      ∃ k₁, k₁ ∉ declaredNames props ∧
        validate env true h (fuel + 1) g (.object props none) a
          = some (.fail (.superfluousProperty k₁) [])) ∧
    (∀ opts₁ opts₂ : TransformerOptions, ∀ d fuel₁ a₁,
      opts₁.shortCircuit = opts₂.shortCircuit →
      equals opts₁ env d h fuel₁ a₁ = equals opts₂ env d h fuel₁ a₁) ∧
    equalsVerdict []
      (.object [("o", .object [("x", .primitive .pString, false)] none,
        false)] none)
      [.vObject [("o", 1)], .vObject [("x", 2), ("y", 3)], .vString "a",
        .vString "b"] 3 0
      = some (.fail (.superfluousProperty "y") [.field "o"]) ∧
    equalsVerdict [] (.arr (.object [("x", .primitive .pString, false)] none))
      [.vArray [1], .vObject [("x", 2), ("y", 3)], .vString "a",
        .vString "b"] 3 0
      = some (.fail (.superfluousProperty "y") [.index 0]) ∧
    equalsVerdict []
      (.tuple [.object [("x", .primitive .pString, false)] none] none)
      [.vArray [1], .vObject [("x", 2), ("y", 3)], .vString "a",
        .vString "b"] 3 0
      = some (.fail (.superfluousProperty "y") [.index 0]) ∧
    equalsVerdict []
      (.union [.object [("x", .primitive .pString, false)] none])
      [.vObject [("x", 1), ("y", 2)], .vString "a", .vString "b"] 3 0
      = some (.fail (.superfluousProperty "y") []) := by
  refine ⟨?_, ?_, rfl, rfl, rfl, rfl⟩
  · intro hv hp k a₁ hk hnd
    obtain ⟨k₁, h1, h2⟩ :=
      superfluousCheck_fail (declaredNames props) kvs k a₁ hk hnd
    exact ⟨k₁, h1, by simp [validate, hv, hp, h2]⟩
  · intro o1 o2 d fuel₁ a₁ hsc
    simp [equals, topVerdict, hsc]

/-- Modelled from the spec sentence on union diagnostics, as a second
definition to compare the implementation against: among the per-branch
failures, prefer the one whose path is deepest, earlier branches winning
ties. -/
def deepestFirst : List (Reason × Path) → Option (Reason × Path)
  | [] => none
  | x :: xs =>
    match deepestFirst xs with
    | none => some x
    | some y => if x.2.length < y.2.length then some y else some x

/-- Fold of a starting best failure with the deepest-first choice of a
list of later failures. -/
def combineBest (b : Reason × Path) (fs : List (Reason × Path)) :
    Reason × Path :=
  match deepestFirst fs with
  | none => b
  | some y => if b.2.length < y.2.length then y else b

/-- Absorbing the head failure into the accumulator commutes with the
deepest-first choice. -/
theorem combineBest_cons (b x : Reason × Path) (fs : List (Reason × Path)) :
    combineBest b (x :: fs)
      = combineBest (if b.2.length < x.2.length then x else b) fs := by
  rcases hdf : deepestFirst fs with _ | y
  · by_cases h3 : b.2.length < x.2.length <;>
      simp [combineBest, deepestFirst, hdf, h3]
  · by_cases h1 : x.2.length < y.2.length
    · by_cases h3 : b.2.length < x.2.length
      · have h2 : b.2.length < y.2.length := lt_trans h3 h1
        simp [combineBest, deepestFirst, hdf, h1, h2, h3]
      · simp [combineBest, deepestFirst, hdf, h1, h3]
    · by_cases h3 : b.2.length < x.2.length
      · simp [combineBest, deepestFirst, hdf, h1, h3]
      · have h2 : ¬ b.2.length < y.2.length := by omega
        simp [combineBest, deepestFirst, hdf, h1, h2, h3]

/-- When every member fails, the union accumulator computes the
deepest-first combination of the accumulated best and the member
failures. -/
theorem seqUnion_allFail (f : Desc → Option Verdict) :
    ∀ (ms : List Desc) (fs : List (Reason × Path)) (b : Reason × Path),
      List.Forall₂ (fun m rp => f m = some (.fail rp.1 rp.2)) ms fs →
      seqUnion f (some b) ms
        = some (.fail (combineBest b fs).1 (combineBest b fs).2) := by
  intro ms
  induction ms with
  | nil =>
    intro fs b hf
    cases hf
    simp [seqUnion, combineBest, deepestFirst]
  | cons m ms ih =>
    intro fs b hf
    cases hf with
    | cons hx hrest =>
      rename_i x fs'
      rw [combineBest_cons]
      simp only [seqUnion, hx]
      by_cases hlen : b.2.length < x.2.length
      · simp only [hlen, if_true]
        exact ih fs' x hrest
      · simp only [hlen, if_false]
        exact ih fs' b hrest

/-- When all members before a passing member fail, the union
short-circuits with pass at the first passing member. -/
theorem seqUnion_first_pass (f : Desc → Option Verdict) :
    ∀ (ms₁ : List Desc) (d : Desc) (ms₂ : List Desc)
      (best : Option (Reason × Path)),
      (∀ m ∈ ms₁, ∃ r p, f m = some (.fail r p)) →
      f d = some .pass →
      seqUnion f best (ms₁ ++ d :: ms₂) = some .pass := by
  intro ms₁
  induction ms₁ with
  | nil =>
    intro d ms₂ best _ hd
    simp [seqUnion, hd]
  | cons m ms ih =>
    intro d ms₂ best hfail hd
    obtain ⟨r, p, hm⟩ := hfail m (List.mem_cons_self m ms)
    have hrest : ∀ m₁ ∈ ms, ∃ r₁ p₁, f m₁ = some (.fail r₁ p₁) :=
      fun m₁ hm₁ => hfail m₁ (List.mem_cons_of_mem m hm₁)
    simp only [List.cons_append, seqUnion, hm]
    cases best with
    | none => exact ih d ms₂ _ hrest hd
    | some b =>
      obtain ⟨r0, p0⟩ := b
      by_cases hl : p0.length < p.length <;> simp only [hl, if_true, if_false] <;>
        exact ih d ms₂ _ hrest hd

/-- Unfolding of the validator at a union descriptor, keeping the member
calls folded. -/
theorem validate_union_unfold (env : DescEnv) (strict : Bool) (h : Heap)
    (fuel : Nat) (g : List (Nat × Nat)) (ms : List Desc) (a : Nat) (v : JsVal)
    (hv : h[a]? = some v) :
    validate env strict h (fuel + 1) g (.union ms) a
      = seqUnion (fun d₁ => validate env strict h fuel g d₁ a) none ms := by
  simp [validate, hv]

/-- C5 counterexample: validating (a: 1) against
Union(Object(a: string), Object(a: number, b: string)) reports the FIRST
branch's failure (the type mismatch at property a, path depth 1), because
the second branch's failure (missing property b) is reported at the object
itself with an empty path; the claim predicted the second branch's
failure. -/
theorem union_deepest_counterexample :
    validate [] false [.vObject [("a", 1)], .vNumber 1] 4 []
      (.union [.object [("a", .primitive .pString, false)] none,
        .object [("a", .primitive .pNumber, false),
          ("b", .primitive .pString, false)] none]) 0
      = some (.fail .typeMismatch [.field "a"]) ∧
    validate [] false [.vObject [("a", 1)], .vNumber 1] 3 []
      (.object [("a", .primitive .pNumber, false),
        ("b", .primitive .pString, false)] none) 0
      = some (.fail (.missingProperty "b") []) ∧
    validate [] false [.vObject [("a", 1)], .vNumber 1] 4 []
      (.union [.object [("a", .primitive .pString, false)] none,
        .object [("a", .primitive .pNumber, false),
          ("b", .primitive .pString, false)] none]) 0
      ≠ some (.fail (.missingProperty "b") []) :=
  ⟨rfl, rfl, by decide⟩

/-- C5 amended: union members are tried in declaration order and the first
passing member short-circuits with pass; when every member fails, the
reported failure is the deepest-first choice among the member failures
(deepest path wins, earlier branches win ties); on the spec's example the
deepest failure is the first branch's (depth 1 at property a, against
depth 0 for the second branch's missing property), so the first branch's
failure is reported. -/
theorem union_order_and_depth (env : DescEnv) (strict : Bool) (h : Heap)
    (g : List (Nat × Nat)) (fuel a : Nat) :
    (∀ (ms₁ : List Desc) (d : Desc) (ms₂ : List Desc),
      (∀ m ∈ ms₁, ∃ r p, validate env strict h fuel g m a = some (.fail r p)) →
      validate env strict h fuel g d a = some .pass →
      validate env strict h (fuel + 1) g (.union (ms₁ ++ d :: ms₂)) a
        = some .pass) ∧
    (∀ v, h[a]? = some v → ∀ (ms : List Desc) (fs : List (Reason × Path)),
      List.Forall₂
        (fun m rp => validate env strict h fuel g m a = some (.fail rp.1 rp.2))
        ms fs →
      validate env strict h (fuel + 1) g (.union ms) a
        = match deepestFirst fs with
          | none => some (.fail .noUnionMemberMatched [])
          | some rp => some (.fail rp.1 rp.2)) ∧
    validate [] false [.vObject [("a", 1)], .vNumber 1] 4 []
      (.union [.object [("a", .primitive .pString, false)] none,
        .object [("a", .primitive .pNumber, false),
          ("b", .primitive .pString, false)] none]) 0
      = some (.fail .typeMismatch [.field "a"]) := by
  refine ⟨?_, ?_, rfl⟩
  · intro ms₁ d ms₂ hfail hd
    cases fuel with
    | zero => simp [validate] at hd
    | succ f =>
      rcases hva : h[a]? with _ | v
      · rw [show validate env strict h (f + 1) g d a
            = some (.fail .typeMismatch []) by simp [validate, hva]] at hd
        simp at hd
      · rw [validate_union_unfold env strict h (f + 1) g (ms₁ ++ d :: ms₂) a
          v hva]
        exact seqUnion_first_pass _ ms₁ d ms₂ none hfail hd
  · intro v hva ms fs hf
    rw [validate_union_unfold env strict h fuel g ms a v hva]
    cases hf with
    | nil => simp [seqUnion, deepestFirst]
    | cons hx hrest =>
      rename_i m₀ x₀ ms₀ fs₀
      simp only [seqUnion, hx]
      rw [seqUnion_allFail _ _ _ _ hrest]
      rcases hdf : deepestFirst fs₀ with _ | y
      · simp [combineBest, deepestFirst, hdf]
      · by_cases hc : x₀.2.length < y.2.length <;>
          simp [combineBest, deepestFirst, hdf, hc]

/-- Witness for the amended C5: a union whose first member fails and whose
second member passes short-circuits with pass, and the all-fail case on the
spec's example selects the deepest-first failure. -/
theorem union_order_and_depth_witness :
    validate [] false [.vObject [("a", 1)], .vNumber 1] 3 []
      (.union [.primitive .pString, .object [("a", .primitive .pNumber,
        false)] none]) 0 = some .pass ∧
    validate [] false [.vObject [("a", 1)], .vNumber 1] 4 []
      (.union [.object [("a", .primitive .pString, false)] none,
        .object [("a", .primitive .pNumber, false),
          ("b", .primitive .pString, false)] none]) 0
      = some (.fail .typeMismatch [.field "a"]) := by
  constructor
  · exact (union_order_and_depth [] false [.vObject [("a", 1)], .vNumber 1]
      [] 2 0).1 [.primitive .pString]
      (.object [("a", .primitive .pNumber, false)] none) []
      (by intro m hm
          simp only [List.mem_singleton] at hm
          exact ⟨.typeMismatch, [], by subst hm; exact rfl⟩) rfl
  · exact (union_order_and_depth [] false [.vObject [("a", 1)], .vNumber 1]
      [] 3 0).2.2

/-- Witness for C8 at a concrete input: the undeclared key y on an object
whose declared property x passes is flagged under strictness. -/
theorem strictness_every_level_witness :
    ∃ k₁, k₁ ∉ declaredNames [("x", Desc.primitive .pString, false)] ∧
      validate [] true [.vObject [("x", 1), ("y", 2)], .vString "a",
          .vString "b"] 2 []
        (.object [("x", .primitive .pString, false)] none) 0
        = some (.fail (.superfluousProperty k₁) []) :=
  (strictness_every_level []
    [.vObject [("x", 1), ("y", 2)], .vString "a", .vString "b"] [] 1 0
    [("x", .primitive .pString, false)] [("x", 1), ("y", 2)]).1 rfl rfl
    "y" 2 (by decide) (by decide)

/-- C2: the strict-equality check on Object(x: string) fails with
MissingProperty on the empty object, passes on (x: "a"), and fails with
SuperfluousProperty "y" on (x: "a", y: "b"): a declared non-optional
property must be present, and an enumerable key not declared (nor covered
by an index signature) makes strict validation fail. -/
theorem equals_strictness_examples :
    equalsVerdict [] (.object [("x", .primitive .pString, false)] none)
      [.vObject []] 2 0 = some (.fail (.missingProperty "x") []) ∧
    equalsVerdict [] (.object [("x", .primitive .pString, false)] none)
      [.vObject [("x", 1)], .vString "a"] 2 0 = some .pass ∧
    equalsVerdict [] (.object [("x", .primitive .pString, false)] none)
      [.vObject [("x", 1), ("y", 2)], .vString "a", .vString "b"] 2 0
      = some (.fail (.superfluousProperty "y") []) :=
  ⟨rfl, rfl, rfl⟩

/-- C3: the assertion entry point returns exactly the given value (the same
heap address) when the top-level verdict is pass, and produces a thrown
TypeGuardError carrying the rendered path and reason when it is a failure;
it throws if and only if the verdict is a failure. -/
theorem assertType_throws_iff (opts : TransformerOptions) (env : DescEnv)
    (d : Desc) (h : Heap) (fuel a : Nat) :
    (topVerdict opts opts.disallowSuperfluousObjectProperties env d h fuel a
        = some .pass →
      assertType opts env d h fuel a = some (.ok a)) ∧
    (∀ r p,
      topVerdict opts opts.disallowSuperfluousObjectProperties env d h fuel a
          = some (.fail r p) →
      assertType opts env d h fuel a
        = some (.error (.typeGuardError (renderFailMessage r p)))) ∧
    (∀ b, assertType opts env d h fuel a = some (.ok b) →
      b = a ∧
      topVerdict opts opts.disallowSuperfluousObjectProperties env d h fuel a
        = some .pass) ∧
    (∀ e, assertType opts env d h fuel a = some (.error e) →
      ∃ r p,
        topVerdict opts opts.disallowSuperfluousObjectProperties env d h fuel a
          = some (.fail r p) ∧
        e = .typeGuardError (renderFailMessage r p)) := by
  rcases htv : topVerdict opts opts.disallowSuperfluousObjectProperties env d h fuel a
    with _ | v
  · simp [assertType, htv]
  · cases v with
    | pass => simp [assertType, htv]
    | fail r p =>
      refine ⟨by simp [htv], ?_, ?_, ?_⟩
      · intro r₁ p₁ he
        simp only [htv, Option.some.injEq, Verdict.fail.injEq] at he
        obtain ⟨rfl, rfl⟩ := he
        simp [assertType, htv]
      · intro b hb
        simp [assertType, htv] at hb
      · intro e he
        simp [assertType, htv] at he
        exact ⟨r, p, rfl, he.symm⟩

/-- Witness for C3 at concrete inputs: asserting 42 against number returns
the value, asserting 42 against string throws the rendered failure. -/
theorem assertType_throws_iff_witness :
    assertType ⟨false, false⟩ [] (.primitive .pNumber) [JsVal.vNumber 42] 1 0
      = some (.ok 0) ∧
    assertType ⟨false, false⟩ [] (.primitive .pString) [JsVal.vNumber 42] 1 0
      = some (.error (.typeGuardError (renderFailMessage .typeMismatch []))) :=
  ⟨(assertType_throws_iff ⟨false, false⟩ [] (.primitive .pNumber)
      [JsVal.vNumber 42] 1 0).1 rfl,
   (assertType_throws_iff ⟨false, false⟩ [] (.primitive .pString)
      [JsVal.vNumber 42] 1 0).2.1 .typeMismatch [] rfl⟩

/-- C7: with short-circuit enabled, every entry point reports pass without
invoking the compiled validation procedure at all: the results hold even
with zero fuel, with which the validator itself could not return anything. -/
theorem shortCircuit_always_pass (opts : TransformerOptions) (env : DescEnv)
    (d : Desc) (h : Heap) (a : Nat) (hsc : opts.shortCircuit = true) :
    (∀ strict fuel, topVerdict opts strict env d h fuel a = some .pass) ∧
    (∀ fuel, is opts env d h fuel a = some (.ok true)) ∧
    is opts env d h 0 a = some (.ok true) ∧
    equals opts env d h 0 a = some (.ok true) ∧
    assertType opts env d h 0 a = some (.ok a) := by
  refine ⟨?_, ?_, ?_, ?_, ?_⟩ <;>
    simp [is, equals, assertType, topVerdict, hsc]

/-- Witness for C7: a concrete short-circuited guard passes with no fuel. -/
theorem shortCircuit_always_pass_witness :
    is ⟨true, false⟩ [] (.primitive .pString) [JsVal.vNumber 0] 0 0
      = some (.ok true) :=
  (shortCircuit_always_pass ⟨true, false⟩ [] (.primitive .pString)
    [JsVal.vNumber 0] 0 rfl).2.2.1

/-- C9: the boolean entry points never produce a thrown value: a definite
verdict is collapsed to a boolean, false exactly on a failure; the
factory-produced functions agree with the direct entry points. -/
theorem boolean_guards_never_throw (opts : TransformerOptions) (env : DescEnv)
    (d : Desc) (h : Heap) (fuel a : Nat) :
    (∀ e, is opts env d h fuel a ≠ some (.error e)) ∧
    (∀ e, equals opts env d h fuel a ≠ some (.error e)) ∧
    createIs opts env d h fuel a = is opts env d h fuel a ∧
    createEquals opts env d h fuel a = equals opts env d h fuel a ∧
    (opts.shortCircuit = false →
      ∀ v, validate env opts.disallowSuperfluousObjectProperties h fuel [] d a
          = some v →
        is opts env d h fuel a = some (.ok (v == .pass))) ∧
    (opts.shortCircuit = false →
      ∀ w, validate env true h fuel [] d a = some w →
        equals opts env d h fuel a = some (.ok (w == .pass))) := by
  refine ⟨?_, ?_, rfl, rfl, ?_, ?_⟩
  · intro e hc
    rcases htv : topVerdict opts opts.disallowSuperfluousObjectProperties env d h fuel a
      with _ | v
    · simp [is, htv] at hc
    · simp [is, htv] at hc
  · intro e hc
    rcases htv : topVerdict opts true env d h fuel a with _ | v
    · simp [equals, htv] at hc
    · simp [equals, htv] at hc
  · intro hsc v hv
    simp [is, topVerdict, hsc, hv]
  · intro hsc w hw
    simp [equals, topVerdict, hsc, hw]

/-- Witness for C9 at concrete inputs: a passing check returns true, a
failing check returns false (and neither is a thrown value). -/
theorem boolean_guards_never_throw_witness :
    is ⟨false, false⟩ [] (.primitive .pNumber) [JsVal.vNumber 1] 1 0
      = some (.ok true) ∧
    equals ⟨false, false⟩ [] (.primitive .pNumber) [JsVal.vString "x"] 1 0
      = some (.ok false) := by
  constructor
  · have hx := (boolean_guards_never_throw ⟨false, false⟩ []
      (.primitive .pNumber) [JsVal.vNumber 1] 1 0).2.2.2.2.1 rfl .pass rfl
    simpa using hx
  · have hx := (boolean_guards_never_throw ⟨false, false⟩ []
      (.primitive .pNumber) [JsVal.vString "x"] 1 0).2.2.2.2.2 rfl
      (.fail .typeMismatch []) rfl
    simpa using hx

/-- C10: every thrown value produced by assertType, or by a function
produced by createAssertType, is an instance of TypeGuardError, and
TypeGuardError is a subclass of Error, so an instanceof check distinguishes
this library's assertion failures. -/
theorem assertType_error_class (opts : TransformerOptions) (env : DescEnv)
    (d : Desc) (h : Heap) (fuel a : Nat) :
    (∀ e, assertType opts env d h fuel a = some (.error e) →
      instanceOfTypeGuardError e = true ∧ instanceOfError e = true) ∧
    (∀ e, createAssertType opts env d h fuel a = some (.error e) →
      instanceOfTypeGuardError e = true ∧ instanceOfError e = true) ∧
    createAssertType opts env d h fuel a = assertType opts env d h fuel a := by
  have key : ∀ e, assertType opts env d h fuel a = some (.error e) →
      instanceOfTypeGuardError e = true ∧ instanceOfError e = true := by
    intro e he
    rcases htv : topVerdict opts opts.disallowSuperfluousObjectProperties env d h fuel a
      with _ | v
    · simp [assertType, htv] at he
    · cases v with
      | pass => simp [assertType, htv] at he
      | fail r p =>
        simp [assertType, htv] at he
        subst he
        exact ⟨rfl, rfl⟩
  exact ⟨key, key, rfl⟩

/-- Witness for C10: the concrete error thrown when 0 is asserted to be a
string is a TypeGuardError and an Error. -/
theorem assertType_error_class_witness :
    instanceOfTypeGuardError
        (.typeGuardError (renderFailMessage .typeMismatch [])) = true ∧
    instanceOfError
        (.typeGuardError (renderFailMessage .typeMismatch [])) = true :=
  (assertType_error_class ⟨false, false⟩ [] (.primitive .pString)
    [JsVal.vNumber 0] 1 0).1 _ rfl

/-- A successful property lookup returns one of the stored addresses. -/
theorem lookupProp_mem (kvs : List (String × Nat)) (name : String) (a₁ : Nat) :
    lookupProp kvs name = some a₁ → a₁ ∈ kvs.map Prod.snd := by
  induction kvs with
  | nil => intro hc; simp [lookupProp] at hc
  | cons q rest ih =>
    obtain ⟨k, b⟩ := q
    intro hc
    by_cases hk : k = name
    · simp only [lookupProp, hk, if_true, Option.some.injEq] at hc
      simp [← hc]
    · simp only [lookupProp, hk, if_false] at hc
      simp [ih hc]

/-- In a well-formed heap, every child address stored in a node is in
range. -/
theorem wfHeap_bound (h : Heap) (hw : wfHeap h = true) :
    ∀ v ∈ h, ∀ x ∈ nodeAddrs v, x < h.length := by
  intro v hv x hx
  simp only [wfHeap, List.all_eq_true, decide_eq_true_eq] at hw
  exact hw v hv x hx

/-- Pigeonhole: a duplicate-free list of naturals below L with at least L
entries contains every natural below L. -/
theorem full_list_mem (L : Nat) (l : List Nat) (hnd : l.Nodup)
    (hsub : ∀ x ∈ l, x < L) (hlen : L ≤ l.length) (a : Nat) (ha : a < L) :
    a ∈ l := by
  have h1 : l.toFinset ⊆ Finset.range L := by
    intro x hx
    exact Finset.mem_range.mpr (hsub x (List.mem_toFinset.mp hx))
  have h2 : (Finset.range L).card ≤ l.toFinset.card := by
    rw [List.toFinset_card_of_nodup hnd, Finset.card_range]
    exact hlen
  have h3 : l.toFinset = Finset.range L :=
    Finset.eq_of_subset_of_card_le h1 h2
  exact List.mem_toFinset.mp (h3 ▸ Finset.mem_range.mpr ha)

/-- When the recursion guard already covers every heap address, any valid
address is guarded. -/
theorem guard_hit (h : Heap) (g : List (Nat × Nat))
    (hg : ∀ q ∈ g, q.1 = 0 ∧ q.2 < h.length)
    (hnd : (g.map Prod.snd).Nodup)
    (hlen : h.length ≤ g.length) (a : Nat) (ha : a < h.length) :
    (0, a) ∈ g := by
  have hmem : a ∈ g.map Prod.snd := by
    refine full_list_mem h.length _ hnd ?_ ?_ a ha
    · intro x hx
      obtain ⟨q, hq, rfl⟩ := List.mem_map.mp hx
      exact (hg q hq).2
    · simpa using hlen
  obtain ⟨q, hq, hq2⟩ := List.mem_map.mp hmem
  have h1 := (hg q hq).1
  have hqe : q = (0, a) := by
    obtain ⟨q1, q2⟩ := q
    simp only at h1 hq2
    simp [h1, hq2]
  exact hqe ▸ hq

/-- Unfolding of the validator at a reference descriptor, keeping the
recursive call folded. -/
theorem validate_ref_unfold (env : DescEnv) (strict : Bool) (h : Heap)
    (fuel : Nat) (g : List (Nat × Nat)) (id a : Nat) (v : JsVal)
    (hv : h[a]? = some v) (d : Desc) (hid : env[id]? = some d) :
    validate env strict h (fuel + 1) g (.ref id) a
      = if (id, a) ∈ g then some .pass
        else validate env strict h fuel ((id, a) :: g) d a := by
  simp [validate, hv, hid]

/-- Unfolding of the validator at an object descriptor, keeping the
property pass folded. -/
theorem validate_object_unfold (env : DescEnv) (strict : Bool) (h : Heap)
    (fuel : Nat) (g : List (Nat × Nat)) (props : List (String × Desc × Bool))
    (idx : Option Desc) (a : Nat) (kvs : List (String × Nat))
    (hv : h[a]? = some (.vObject kvs)) :
    validate env strict h (fuel + 1) g (.object props idx) a
      = match seqProps (fun d₁ a₁ => validate env strict h fuel g d₁ a₁)
          kvs props with
        | none => none
        | some (.fail r p) => some (.fail r p)
        | some .pass =>
          match idx with
          | some dI =>
            seqIndexKeys (fun d₁ a₁ => validate env strict h fuel g d₁ a₁)
              (declaredNames props) dI kvs
          | none =>
            if strict then some (superfluousCheck (declaredNames props) kvs)
            else some .pass := by
  simp [validate, hv]

/-- One unfolding step of the recursive descriptor recD: with at least
three units of fuel, the call either reaches a terminal verdict, hits the
recursion guard (treated as pass), or reduces to a recursive call on a
fresh guarded address, whose success is assumed as a hypothesis. -/
theorem validate_recD_step (h : Heap) (hw : wfHeap h = true) (s : Bool)
    (g : List (Nat × Nat)) (a fuel : Nat)
    (hfuel : 3 ≤ fuel)
    (hrec : ∀ a₁, a₁ < h.length → (0, a₁) ∉ g →
      (validate recEnv s h (fuel - 2) ((0, a₁) :: g) recD a₁).isSome = true) :
    (validate recEnv s h fuel g recD a).isSome = true := by
  obtain ⟨f1, rfl⟩ : ∃ f1, fuel = f1 + 1 := ⟨fuel - 1, by omega⟩
  rcases hva : h[a]? with _ | v
  · rw [show validate recEnv s h (f1 + 1) g recD a
        = some (.fail .typeMismatch []) from by simp [validate, hva]]
    rfl
  · cases v with
    | vObject kvs =>
      show (validate recEnv s h (f1 + 1) g
        (.object [("next", Desc.ref 0, false)] none) a).isSome = true
      rw [validate_object_unfold recEnv s h f1 g
        [("next", Desc.ref 0, false)] none a kvs hva]
      rcases hlp : lookupProp kvs "next" with _ | a₁
      · rw [show seqProps (fun d₁ a₁ => validate recEnv s h f1 g d₁ a₁) kvs
            [("next", Desc.ref 0, false)]
            = some (.fail (.missingProperty "next") []) from by
          simp [seqProps, hlp]]
        rfl
      · have hvm : JsVal.vObject kvs ∈ h := List.getElem?_mem hva
        have ha₁ : a₁ < h.length := by
          refine wfHeap_bound h hw _ hvm a₁ ?_
          simpa [nodeAddrs] using lookupProp_mem kvs "next" a₁ hlp
        obtain ⟨f2, rfl⟩ : ∃ f2, f1 = f2 + 1 := ⟨f1 - 1, by omega⟩
        obtain ⟨w, hwa⟩ : ∃ w, h[a₁]? = some w :=
          ⟨h.get ⟨a₁, ha₁⟩,
            (List.getElem?_eq_some_getElem_iff h a₁ ha₁).mpr trivial⟩
        have href := validate_ref_unfold recEnv s h f2 g 0 a₁ w hwa recD rfl
        by_cases hmem : (0, a₁) ∈ g
        · have hrefp : validate recEnv s h (f2 + 1) g (.ref 0) a₁
              = some .pass := by rw [href, if_pos hmem]
          rw [show seqProps (fun d₁ a₂ => validate recEnv s h (f2 + 1) g d₁ a₂)
              kvs [("next", Desc.ref 0, false)] = some .pass from by
            simp [seqProps, hlp, hrefp]]
          cases s <;> simp
        · have hres : (validate recEnv s h f2 ((0, a₁) :: g) recD a₁).isSome
              = true := hrec a₁ ha₁ hmem
          obtain ⟨w₂, hw₂⟩ := Option.isSome_iff_exists.mp hres
          have hrefr : validate recEnv s h (f2 + 1) g (.ref 0) a₁ = some w₂ := by
            rw [href, if_neg hmem]; exact hw₂
          cases w₂ with
          | pass =>
            rw [show seqProps
                (fun d₁ a₂ => validate recEnv s h (f2 + 1) g d₁ a₂)
                kvs [("next", Desc.ref 0, false)] = some .pass from by
              simp [seqProps, hlp, hrefr]]
            cases s <;> simp
          | fail r p =>
            rw [show seqProps
                (fun d₁ a₂ => validate recEnv s h (f2 + 1) g d₁ a₂)
                kvs [("next", Desc.ref 0, false)]
                = some (.fail r (.field "next" :: p)) from by
              simp [seqProps, hlp, hrefr]]
            rfl
    | vString s₁ => simp [validate, hva, recD]
    | vNumber n₁ => simp [validate, hva, recD]
    | vBoolean b₁ => simp [validate, hva, recD]
    | vNull => simp [validate, hva, recD]
    | vUndefined => simp [validate, hva, recD]
    | vBigint n₁ => simp [validate, hva, recD]
    | vArray xs => simp [validate, hva, recD]

/-- Fuel sufficiency for the recursive descriptor: with 3n + 3 fuel, where
n bounds the number of unguarded heap addresses, validation of recD always
reaches a definite verdict. -/
theorem validate_recD_total_aux (h : Heap) (hw : wfHeap h = true) (s : Bool) :
    ∀ (n : Nat) (g : List (Nat × Nat)) (a : Nat) (fuel : Nat),
      (∀ q ∈ g, q.1 = 0 ∧ q.2 < h.length) →
      (g.map Prod.snd).Nodup →
      h.length ≤ g.length + n →
      3 * n + 3 ≤ fuel →
      (validate recEnv s h fuel g recD a).isSome = true := by
  intro n
  induction n with
  | zero =>
    intro g a fuel hg hnd hlen hfuel
    refine validate_recD_step h hw s g a fuel (by omega) ?_
    intro a₁ ha₁ hnotmem
    exact absurd (guard_hit h g hg hnd (by omega) a₁ ha₁) hnotmem
  | succ n ih =>
    intro g a fuel hg hnd hlen hfuel
    refine validate_recD_step h hw s g a fuel (by omega) ?_
    intro a₁ ha₁ hnotmem
    refine ih ((0, a₁) :: g) a₁ (fuel - 2) ?_ ?_ ?_ (by omega)
    · intro q hq
      rcases List.mem_cons.mp hq with rfl | hq₁
      · exact ⟨rfl, ha₁⟩
      · exact hg q hq₁
    · refine List.Nodup.cons ?_ hnd
      intro hc
      obtain ⟨q, hq, hq2⟩ := List.mem_map.mp hc
      have h1 := (hg q hq).1
      have : q = (0, a₁) := by
        obtain ⟨q1, q2⟩ := q
        simp only at h1 hq2
        simp [h1, hq2]
      exact hnotmem (this ▸ hq)
    · simp only [List.length_cons]
      omega

/-- C4: for the recursive descriptor D = Object(next: Reference(D)),
validation reaches a definite verdict on every address of every
well-formed heap (with fuel 3 times the heap size plus 3); on the cyclic
value whose next points back to itself the verdict is pass, because
re-entering the guarded (descriptor id, value address) pair is treated as
pass; on an acyclic chain it also terminates, with the chain's terminal
null failing the object check. -/
theorem recursive_descriptor_terminates :
    (∀ (h : Heap) (s : Bool) (a : Nat), wfHeap h = true →
      ∃ v, validate recEnv s h (3 * h.length + 3) [] recD a = some v) ∧
    validate recEnv false [.vObject [("next", 0)]] 6 [] recD 0 = some .pass ∧
    validate recEnv false
      [.vObject [("next", 1)], .vObject [("next", 2)], .vNull] 12 [] recD 0
      = some (.fail .typeMismatch [.field "next", .field "next"]) := by
  refine ⟨?_, rfl, rfl⟩
  intro h s a hw
  have hx := validate_recD_total_aux h hw s h.length [] a (3 * h.length + 3)
    (by simp) (by simp) (by simp) (by omega)
  exact Option.isSome_iff_exists.mp hx

/-- Witness for C4 at concrete inputs: the cyclic one-node heap and a
three-node acyclic chain both terminate. -/
theorem recursive_descriptor_terminates_witness :
    (∃ v, validate recEnv false [JsVal.vObject [("next", 0)]] 6 [] recD 0
      = some v) ∧
    (∃ v, validate recEnv false
      [JsVal.vObject [("next", 1)], JsVal.vObject [("next", 2)], JsVal.vNull]
      12 [] recD 0 = some v) :=
  ⟨recursive_descriptor_terminates.1 [JsVal.vObject [("next", 0)]] false 0
     rfl,
   recursive_descriptor_terminates.1
     [JsVal.vObject [("next", 1)], JsVal.vObject [("next", 2)], JsVal.vNull]
     false 0 rfl⟩

end TsIs
